import Mathlib

/-!
Shallow embedding of `sh/cmd.go` (package `sh` of the mage repository).

The package wraps "launch a process and wait".  The operating system, the
ambient environment, and the filesystem are modelled as an oracle (`World`);
the Go functions `Exec`, `run`, `expandGlob`, `CmdRan`, `ExitStatus`,
`Output`, `OutputWith`, `Run`, `RunWith`, and `RunCmd` are translated
one-to-one.  Strings model Go strings (byte strings; all inputs of interest
are ASCII, so `Char` stands for a byte).
-/

namespace Sh

/-- Model of the Go `error` values that flow through this package.
* `exitError exited sysHasStatus status` models `*exec.ExitError`:
  `Exited()` returns `exited`; `Sys()` implements the `ExitStatus() int`
  interface iff `sysHasStatus`, and then returns `status`.
* `withExitStatus status msg` models any error value whose dynamic type
  implements `ExitStatus() int` (in particular the error built by
  `mg.Fatalf`, see `fatalf` below).
* `plain msg` models every other error (`fmt.Errorf` results, OS launch
  errors, `filepath.ErrBadPattern`, ...). -/
inductive GoError where
  | exitError (exited : Bool) (sysHasStatus : Bool) (status : Int)
  | withExitStatus (status : Int) (msg : String)
  | plain (msg : String)
  deriving DecidableEq

/-- `Error()` message of a modelled Go error (`*exec.ExitError` prints
`exit status N`). -/
def errorMsg : GoError → String
  | .exitError _ _ s => "exit status " ++ toString s
  | .withExitStatus _ m => m
  | .plain m => m

/-- Go `CmdRan(err error) bool` from cmd.go: `nil` reports true; an
`*exec.ExitError` reports `ee.Exited()`; any other error reports false. -/
def CmdRan (err : Option GoError) : Bool :=
  match err with
  | none => true
  | some (.exitError exited _ _) => exited
  | some _ => false

/-- Go `ExitStatus(err error) int` from cmd.go: `0` for `nil`; the carried
status if the error implements `ExitStatus() int`; for an `*exec.ExitError`
whose `Sys()` implements `ExitStatus() int`, that status; otherwise `1`. -/
def ExitStatus (err : Option GoError) : Int :=
  match err with
  | none => 0
  | some (.withExitStatus s _) => s
  | some (.exitError _ sysHasStatus status) => if sysHasStatus then status else 1
  | some (.plain _) => 1

/-- Outcome of `c.Run()` for one launched command: either the process
started and exited normally with a status byte, or it could not be started
at all (missing binary, permission denied, ...). -/
inductive RunOutcome where
  | exited (status : Nat)
  | launchError (msg : String)
  deriving DecidableEq

/-- Did the outcome involve a started process? -/
def RunOutcome.started : RunOutcome → Bool
  | .exited _ => true
  | .launchError _ => false

/-- The `error` returned by Go `c.Run()` for a given outcome: `nil` on exit
status 0; an `*exec.ExitError` (normal exit, `Sys()` a wait status carrying
the code) on nonzero exit; the underlying OS error if the process never
started. -/
def errOfOutcome : RunOutcome → Option GoError
  | .exited 0 => none
  | .exited s => some (.exitError true true (s : Int))
  | .launchError m => some (.plain m)

/-- What the child process does when launched: its exit / launch outcome and
the bytes it writes to the stdout sink. -/
structure ProcBehavior where
  outcome : RunOutcome
  stdout : String
  deriving DecidableEq

/-- The oracle for everything outside the package: the ambient environment
table (`os.Getenv` / `os.Environ`), the filesystem as seen by
`filepath.Glob` (either `ErrBadPattern`-style error text or the ordered
match list), and the process table (`exec.Command(...).Run()`, keyed by the
command, its final argument list, and the child environment). -/
structure World where
  osEnv : String → Option String
  environ : List String
  glob : String → Except String (List String)
  runProc : String → List String → List String → ProcBehavior

/-- Go `os.Getenv`: the empty string when the variable is unset. -/
def getenv (w : World) (s : String) : String :=
  (w.osEnv s).getD ""

/-- The `expand` closure inside `Exec`: look the name up in the override
map (`s2, ok := env[s]`), fall back to `os.Getenv`. -/
def expandMapping (env : List (String × String)) (w : World) (s : String) : String :=
  match env.lookup s with
  | some v => v
  | none => getenv w s

/-- Go `os.isShellSpecialVar`: `*`, `#`, `$`, `@`, `!`, `?`, `-`, and the
digits `0`–`9`. -/
def isShellSpecialVar (c : Char) : Bool :=
  c = '*' || c = '#' || c = '$' || c = '@' || c = '!' || c = '?' || c = '-' ||
    ('0' ≤ c && c ≤ '9')

/-- Go `os.isAlphaNum`: underscore, digits, ASCII letters. -/
def isAlphaNum (c : Char) : Bool :=
  c = '_' || ('0' ≤ c && c ≤ '9') || ('a' ≤ c && c ≤ 'z') || ('A' ≤ c && c ≤ 'Z')

/-- The brace-scanning loop of Go `os.getShellName`: scan the text after
`${` for the first `}`, returning the name and the number of characters
consumed (name plus the closing brace), or `none` when no `}` occurs. -/
def scanName : List Char → Option (List Char × Nat)
  | [] => none
  | c :: rest =>
    if c = '}' then some ([], 1)
    else
      match scanName rest with
      | some (nm, n) => some (c :: nm, n + 1)
      | none => none

/-- Go `os.getShellName(s)`: the variable name starting at `s` and the
number of characters of `s` it occupies.  `${X}` forms, one-character
special variables, and maximal alphanumeric runs, exactly as in the Go
source; an empty name with positive width means "invalid syntax, eat the
characters", an empty name with width 0 means "lone dollar". -/
def getShellName (s : List Char) : List Char × Nat :=
  match s with
  | [] => ([], 0)
  | c :: rest =>
    if c = '{' then
      match rest with
      | c1 :: '}' :: _ =>
        if isShellSpecialVar c1 then ([c1], 3)
        else
          match scanName rest with
          | some (nm, n) => (nm, 1 + n)
          | none => ([], 1)
      | _ =>
        match scanName rest with
        | some (nm, n) => (nm, 1 + n)
        | none => ([], 1)
    else if isShellSpecialVar c then ([c], 1)
    else
      let nm := s.takeWhile isAlphaNum
      (nm, nm.length)

/-- The character-level loop of Go `os.Expand`: copy characters, and at
each `$` followed by at least one character consult `getShellName`; an
invalid token is eaten, a lone `$` is kept, and a named token is replaced
by `mapping name`. -/
def expandChars (mapping : String → String) : List Char → List Char
  | [] => []
  | c :: rest =>
    if c = '$' ∧ rest ≠ [] then
      let p := getShellName rest
      if p.1 = [] ∧ 0 < p.2 then expandChars mapping (rest.drop p.2)
      else if p.1 = [] then c :: expandChars mapping rest
      else (mapping ⟨p.1⟩).data ++ expandChars mapping (rest.drop p.2)
    else c :: expandChars mapping rest
  termination_by l => l.length
  decreasing_by
    all_goals simp only [List.length_drop, List.length_cons]; omega

/-- Go `os.Expand(s, mapping)`. -/
def osExpand (s : String) (mapping : String → String) : String :=
  ⟨expandChars mapping s.data⟩

/-- Go `strings.HasSuffix`. -/
def hasSuffix (s suf : String) : Bool :=
  decide (suf.data.length ≤ s.data.length) &&
    decide (s.data.drop (s.data.length - suf.data.length) = suf.data)

/-- Go `strings.TrimSuffix`: remove one trailing copy of `suf` if present. -/
def TrimSuffix (s suf : String) : String :=
  if hasSuffix s suf then ⟨s.data.take (s.data.length - suf.data.length)⟩ else s

/-- Go `expandGlob(value)` from cmd.go: for each argument, `filepath.Glob`
it; on a pattern error return that error at once; when there is at least
one match append the matches, otherwise append the argument itself. -/
def expandGlob (w : World) : List String → Except String (List String)
  | [] => .ok []
  | v :: rest =>
    match w.glob v with
    | .error e => .error e
    | .ok ms =>
      match expandGlob w rest with
      | .error e => .error e
      | .ok r => .ok ((if 0 < ms.length then ms else [v]) ++ r)

/-- The child environment built inside `run`: `os.Environ()` with each
override appended as `NAME=VALUE` (later entries win). -/
def childEnv (w : World) (env : List (String × String)) : List String :=
  w.environ ++ env.map (fun p => p.1 ++ "=" ++ p.2)

/-- Result of the inner `run` helper.  `ran`, `code` and `err` are the Go
return values; `attempted` records (as an observation for the theorems) the
command and final argument list handed to `exec.Command`, `none` when the
glob error aborted the call before any launch; `outWritten` records the
bytes the child wrote to the stdout sink. -/
structure RunRes where
  ran : Bool
  code : Int
  err : Option GoError
  attempted : Option (String × List String)
  outWritten : String

/-- Go `run(env, stdout, stderr, cmd, args...)` from cmd.go: glob-expand
the arguments (a glob error returns `(false, 0, err)` before any process
exists), build the child environment, run the command, and return
`(CmdRan(err), ExitStatus(err), err)`. -/
def run (w : World) (env : List (String × String)) (cmd : String)
    (args : List String) : RunRes :=
  match expandGlob w args with
  | .error e => ⟨false, 0, some (.plain e), none, ""⟩
  | .ok expanded =>
    let b := w.runProc cmd expanded (childEnv w env)
    let err := errOfOutcome b.outcome
    ⟨CmdRan err, ExitStatus err, err, some (cmd, expanded), b.stdout⟩

/-- The message of the error built by `mg.Fatalf(code, ...)` in `Exec`:
`running "<cmd> <args>" failed with exit code <code>`. -/
def fatalMsg (cmd : String) (args : List String) (code : Int) : String :=
  "running \"" ++ cmd ++ " " ++ String.intercalate " " args ++
    "\" failed with exit code " ++ toString code

/-- Modelled from the spec: `mg.Fatalf` lives in the repository's `mg`
package, which is not under `src/`.  Per the spec, the nonzero-exit failure
"carries the exit code" so the build tool "can re-exit with the same
numeric code"; it is therefore modelled as an error implementing
`ExitStatus() int` with the given code. -/
def fatalf (code : Int) (msg : String) : GoError :=
  .withExitStatus code msg

/-- The message of the launch-failure error built by `fmt.Errorf` in
`Exec`: `failed to run "<cmd> <args>: <err>"`. -/
def failedMsg (cmd : String) (args : List String) (e : GoError) : String :=
  "failed to run \"" ++ cmd ++ " " ++ String.intercalate " " args ++ ": " ++
    errorMsg e ++ "\""

/-- Result of `Exec`.  `ran` and `err` are the Go return values;
`expandedCmd` / `expandedArgs` are the variable-expanded command and
argument list (the latter is also what `Exec` wrote back into the caller's
`args` slice); `attempted` and `outWritten` are carried up from `run`. -/
structure ExecResult where
  ran : Bool
  err : Option GoError
  expandedCmd : String
  expandedArgs : List String
  attempted : Option (String × List String)
  outWritten : String

/-- Go `Exec(env, stdout, stderr, cmd, args...)` from cmd.go: expand
`$VAR` references in `cmd` and (in place) in every argument using the
override map then the ambient environment, call `run`, and classify: `nil`
error means `(true, nil)`; an error with `ran` true becomes the
`mg.Fatalf` exit-code failure; otherwise the `failed to run` wrapper. -/
def Exec (w : World) (env : List (String × String)) (cmd : String)
    (args : List String) : ExecResult :=
  let mapping := expandMapping env w
  let cmdE := osExpand cmd mapping
  let argsE := args.map (fun a => osExpand a mapping)
  let r := run w env cmdE argsE
  match r.err with
  | none => ⟨true, none, cmdE, argsE, r.attempted, r.outWritten⟩
  | some e =>
    if r.ran then
      ⟨r.ran, some (fatalf r.code (fatalMsg cmdE argsE r.code)), cmdE, argsE,
        r.attempted, r.outWritten⟩
    else
      ⟨r.ran, some (.plain (failedMsg cmdE argsE e)), cmdE, argsE,
        r.attempted, r.outWritten⟩

/-- Go `RunWith(env, cmd, args...)`: `Exec` with stdout/stderr wired to the
ambient sinks (which sink is chosen depends only on the verbose flag and
has no modelled effect); only the error is returned. -/
def RunWith (w : World) (env : List (String × String)) (cmd : String)
    (args : List String) : Option GoError :=
  (Exec w env cmd args).err

/-- Go `Run(cmd, args...)`: `RunWith` with a nil environment map. -/
def Run (w : World) (cmd : String) (args : List String) : Option GoError :=
  RunWith w [] cmd args

/-- Go `Output(cmd, args...)`: `Exec` with stdout captured in a buffer,
returning the captured text with `strings.TrimSuffix(buf.String(), "\n")`. -/
def Output (w : World) (cmd : String) (args : List String) :
    String × Option GoError :=
  let r := Exec w [] cmd args
  (TrimSuffix r.outWritten "\n", r.err)

/-- Go `OutputWith(env, cmd, args...)`: like `Output` with overrides. -/
def OutputWith (w : World) (env : List (String × String)) (cmd : String)
    (args : List String) : String × Option GoError :=
  let r := Exec w env cmd args
  (TrimSuffix r.outWritten "\n", r.err)

/-- The variable-expanded command, as computed inside `Exec`. -/
def expandedCmdOf (w : World) (env : List (String × String)) (cmd : String) :
    String :=
  osExpand cmd (expandMapping env w)

/-- The variable-expanded argument list, as computed inside `Exec`. -/
def expandedArgsOf (w : World) (env : List (String × String))
    (args : List String) : List String :=
  args.map (fun a => osExpand a (expandMapping env w))

/-! ### Slice-aliasing model

`Exec` writes the expanded arguments back through the `args` slice it was
handed (`args[i] = os.Expand(args[i], expand)`), so the mutation is visible
through every slice sharing the backing array.  The heap model below makes
the backing arrays explicit: a `Slice` is a view (array id, offset, length,
capacity) into a `Heap` of backing arrays, and Go's `append` either writes
into the spare capacity of the same array or allocates a fresh one. -/

/-- The store of backing arrays of `string` slices. -/
structure Heap where
  arrays : List (List String)

/-- A Go slice header over `Heap`. -/
structure Slice where
  arr : Nat
  off : Nat
  len : Nat
  cap : Nat

/-- The backing array a slice points into. -/
def heapGet (h : Heap) (i : Nat) : List String :=
  h.arrays.getD i []

/-- Replace one backing array. -/
def heapSet (h : Heap) (i : Nat) (a : List String) : Heap :=
  ⟨h.arrays.set i a⟩

/-- The elements a slice denotes. -/
def sliceRead (h : Heap) (s : Slice) : List String :=
  ((heapGet h s.arr).drop s.off).take s.len

/-- The slice header is in bounds of its backing array. -/
def validSlice (h : Heap) (s : Slice) : Prop :=
  s.arr < h.arrays.length ∧ s.len ≤ s.cap ∧
    s.off + s.cap ≤ (heapGet h s.arr).length

/-- Overwrite the elements at positions `pos, pos+1, ...` of a backing
array with `extra` (the array is long enough whenever Go would do this). -/
def writeAt (l : List String) (pos : Nat) (extra : List String) : List String :=
  l.take pos ++ extra ++ l.drop (pos + extra.length)

/-- Map `f` over the `len` elements starting at `off`, in place. -/
def mapRange (l : List String) (off len : Nat) (f : String → String) :
    List String :=
  l.take off ++ ((l.drop off).take len).map f ++ l.drop (off + len)

/-- Go `append(s, extra...)`: if the extra elements fit in the spare
capacity they are written into the same backing array and the returned
slice aliases it; otherwise a fresh backing array is allocated and the
returned slice points at the copy. -/
def goAppend (h : Heap) (s : Slice) (extra : List String) : Heap × Slice :=
  if s.len + extra.length ≤ s.cap then
    (heapSet h s.arr (writeAt (heapGet h s.arr) (s.off + s.len) extra),
      ⟨s.arr, s.off, s.len + extra.length, s.cap⟩)
  else
    (⟨h.arrays ++ [sliceRead h s ++ extra]⟩,
      ⟨h.arrays.length, 0, s.len + extra.length, s.len + extra.length⟩)

/-- The `for i := range args { args[i] = os.Expand(args[i], expand) }` loop
of `Exec`: write the expanded value of every slice element back through the
slice. -/
def writeExpanded (h : Heap) (s : Slice) (f : String → String) : Heap :=
  heapSet h s.arr (mapRange (heapGet h s.arr) s.off s.len f)

/-- `Exec` on the heap model: identical to `Exec` except that the argument
list arrives as a slice and the variable-expanded arguments are written
back through it before `run` is called on the written-back values. -/
def ExecH (h : Heap) (w : World) (env : List (String × String))
    (cmd : String) (s : Slice) : Heap × ExecResult :=
  let mapping := expandMapping env w
  let cmdE := osExpand cmd mapping
  let h2 := writeExpanded h s (fun a => osExpand a mapping)
  let argsE := sliceRead h2 s
  let r := run w env cmdE argsE
  (h2,
    match r.err with
    | none => ⟨true, none, cmdE, argsE, r.attempted, r.outWritten⟩
    | some e =>
      if r.ran then
        ⟨r.ran, some (fatalf r.code (fatalMsg cmdE argsE r.code)), cmdE,
          argsE, r.attempted, r.outWritten⟩
      else
        ⟨r.ran, some (.plain (failedMsg cmdE argsE e)), cmdE, argsE,
          r.attempted, r.outWritten⟩)

/-- One call of the closure returned by Go `RunCmd(cmd, args...)`, whose
body is `Run(cmd, append(args, args2...)...)`: `append` the extra
arguments to the baked-in slice and hand the resulting slice to
`Run`/`RunWith(nil, ...)`/`Exec`. -/
def runCmdCall (h : Heap) (w : World) (cmd : String) (baked : Slice)
    (args2 : List String) : Heap × ExecResult :=
  let p := goAppend h baked args2
  ExecH p.1 w [] cmd p.2

/-- What a single argument contributes after glob expansion when its glob
call succeeds: the matches when there is at least one, otherwise the
argument itself, literally. -/
def globOne (w : World) (v : String) : List String :=
  match w.glob v with
  | .ok ms => if 0 < ms.length then ms else [v]
  | .error _ => [v]

/-! ### Example worlds for the concrete witnesses -/

/-- A world whose only command exits with status 7. -/
def wExit : World :=
  ⟨fun _ => none, [], fun _ => .ok [], fun _ _ _ => ⟨.exited 7, ""⟩⟩

/-- A world whose only command exits with status 0 printing two newlines. -/
def wZero : World :=
  ⟨fun _ => none, [], fun _ => .ok [], fun _ _ _ => ⟨.exited 0, "hello\n\n"⟩⟩

/-- A world in which no command can be started. -/
def wLaunch : World :=
  ⟨fun _ => none, [], fun _ => .ok [],
    fun _ _ _ => ⟨.launchError "fork/exec /bin/nope: no such file or directory", ""⟩⟩

/-- A world in which every glob pattern is malformed. -/
def wBadGlob : World :=
  ⟨fun _ => none, [], fun _ => .error "syntax error in pattern",
    fun _ _ _ => ⟨.exited 0, ""⟩⟩

/-- A world with `FOO=baz` in the ambient environment and two `.go` files
in the working directory. -/
def wFiles : World :=
  ⟨fun s => if s = "FOO" then some "baz" else none, ["FOO=baz"],
    fun p => if p = "*.go" then .ok ["a.go", "b.go"] else .ok [],
    fun _ _ _ => ⟨.exited 0, ""⟩⟩

/-- A heap holding one backing array with the single baked-in argument
`$FOO`, and the slice over it that `RunCmd` would capture. -/
def hBaked : Heap := ⟨[["$FOO"]]⟩

/-- The slice of `hBaked` holding the baked-in argument. -/
def sBaked : Slice := ⟨0, 0, 1, 1⟩

/-! ### Helper lemmas -/

lemma takeWhile_all {p : Char → Bool} {l : List Char} (h : ∀ a ∈ l, p a = true) :
    l.takeWhile p = l := by
  rw [List.takeWhile_eq_self_iff]; exact h

/-- `getShellName` on a nonempty run of alphanumeric characters whose head
is not a shell special variable takes the whole run. -/
lemma getShellName_alphanum (c0 : Char) (nt : List Char)
    (h0 : isAlphaNum c0 = true) (hns : isShellSpecialVar c0 = false)
    (hall : ∀ c ∈ nt, isAlphaNum c = true) :
    getShellName (c0 :: nt) = (c0 :: nt, nt.length + 1) := by
  have hbrace : c0 ≠ '{' := by
    intro hc; subst hc; simp [isAlphaNum] at h0
  have htw : (c0 :: nt).takeWhile isAlphaNum = c0 :: nt := by
    apply takeWhile_all
    intro a ha
    cases ha with
    | head => exact h0
    | tail _ h => exact hall a h
  simp only [getShellName, if_neg hbrace, hns, if_neg (by simp : ¬(false = true)), htw]
  simp

/-- A whole-string `$NAME` token expands to `mapping NAME`. -/
lemma expandChars_token (mapping : String → String) (c0 : Char) (nt : List Char)
    (h0 : isAlphaNum c0 = true) (hns : isShellSpecialVar c0 = false)
    (hall : ∀ c ∈ nt, isAlphaNum c = true) :
    expandChars mapping ('$' :: c0 :: nt) = (mapping ⟨c0 :: nt⟩).data := by
  rw [expandChars]
  have hcond : ('$' : Char) = '$' ∧ (c0 :: nt) ≠ [] := ⟨rfl, by simp⟩
  rw [if_pos hcond]
  have hg := getShellName_alphanum c0 nt h0 hns hall
  simp only [hg]
  have hne : ¬((c0 :: nt) = [] ∧ 0 < nt.length + 1) := by simp
  rw [if_neg hne, if_neg (by simp : ¬(c0 :: nt) = [])]
  have hdrop : (c0 :: nt).drop (nt.length + 1) = [] := by
    have : (c0 :: nt).length = nt.length + 1 := by simp
    rw [← this, List.drop_length]
  rw [hdrop, expandChars]
  simp

lemma trimSuffix_append_newline (s : String) : TrimSuffix (s ++ "\n") "\n" = s := by
  have hdata : (s ++ "\n").data = s.data ++ ['\n'] := String.data_append s "\n"
  have hlen : (s ++ "\n").data.length = s.data.length + 1 := by rw [hdata]; simp
  have hsub : (s ++ "\n").data.length - ("\n" : String).data.length = s.data.length := by
    rw [hlen]; rfl
  have hsuf : hasSuffix (s ++ "\n") "\n" = true := by
    unfold hasSuffix
    rw [hsub, hdata]
    simp [List.drop_left' (by rfl : s.data.length = s.data.length)]
  unfold TrimSuffix
  rw [if_pos hsuf, hsub, hdata, List.take_left' rfl]

lemma trimSuffix_not_newline (s : String) (h : hasSuffix s "\n" = false) :
    TrimSuffix s "\n" = s := by
  unfold TrimSuffix
  rw [h]
  simp

lemma list_getD_set_self {α : Type} : ∀ (l : List α) (i : Nat) (a d : α),
    i < l.length → (l.set i a).getD i d = a
  | _ :: _, 0, _, _, _ => rfl
  | x :: xs, i + 1, a, d, h => list_getD_set_self xs i a d (by simpa using h)
  | [], _, _, _, h => absurd h (by simp)

lemma list_set_getD_self {α : Type} : ∀ (l : List α) (i : Nat) (d : α),
    i < l.length → l.set i (l.getD i d) = l
  | _ :: _, 0, _, _ => rfl
  | x :: xs, i + 1, d, h =>
    congrArg (x :: ·) (list_set_getD_self xs i d (by simpa using h))
  | [], _, _, h => absurd h (by simp)

lemma heapGet_heapSet_self (h : Heap) (i : Nat) (a : List String)
    (hi : i < h.arrays.length) : heapGet (heapSet h i a) i = a := by
  unfold heapGet heapSet
  exact list_getD_set_self h.arrays i a [] hi

lemma heapSet_heapGet_self (h : Heap) (i : Nat) (hi : i < h.arrays.length) :
    heapSet h i (heapGet h i) = h := by
  unfold heapGet heapSet
  rw [list_set_getD_self h.arrays i [] hi]

/-- Writing the elements back through a slice is visible when reading the
slice again: the in-place update semantics of the argument loop. -/
lemma sliceRead_writeExpanded (h : Heap) (s : Slice) (f : String → String)
    (hv : validSlice h s) :
    sliceRead (writeExpanded h s f) s = (sliceRead h s).map f := by
  obtain ⟨h1, h2, h3⟩ := hv
  unfold sliceRead writeExpanded
  rw [heapGet_heapSet_self _ _ _ h1]
  unfold mapRange
  rw [List.append_assoc,
    List.drop_left' (by rw [List.length_take]; omega),
    List.take_left' (by rw [List.length_map, List.length_take, List.length_drop]; omega)]

lemma writeAt_nil (l : List String) (pos : Nat) : writeAt l pos [] = l := by
  unfold writeAt
  simp

/-- `append(args)` with nothing to append stays within the capacity, so
the returned slice is the original one over the unchanged heap — the
aliasing case of `RunCmd` called with no extra arguments. -/
lemma goAppend_nil (h : Heap) (s : Slice) (hv : validSlice h s) :
    goAppend h s [] = (h, s) := by
  obtain ⟨a, o, le, c⟩ := s
  obtain ⟨h1, h2, h3⟩ := hv
  unfold goAppend
  rw [if_pos (by simpa using h2)]
  rw [writeAt_nil, heapSet_heapGet_self _ _ h1]
  rfl

/-- Master characterization of `Exec`: glob errors abort with the wrapped
error and no launch; otherwise the outcome of the launched process is
classified into success, the `mg.Fatalf` exit-code failure, or the wrapped
launch failure. -/
lemma exec_eq (w : World) (env : List (String × String)) (cmd : String)
    (args : List String) :
    Exec w env cmd args =
      match expandGlob w (expandedArgsOf w env args) with
      | .error e =>
        ⟨false, some (.plain (failedMsg (expandedCmdOf w env cmd)
            (expandedArgsOf w env args) (.plain e))),
          expandedCmdOf w env cmd, expandedArgsOf w env args, none, ""⟩
      | .ok ex =>
        let b := w.runProc (expandedCmdOf w env cmd) ex (childEnv w env)
        match b.outcome with
        | .exited 0 =>
          ⟨true, none, expandedCmdOf w env cmd, expandedArgsOf w env args,
            some (expandedCmdOf w env cmd, ex), b.stdout⟩
        | .exited (n + 1) =>
          ⟨true, some (fatalf ((n : Int) + 1) (fatalMsg (expandedCmdOf w env cmd)
              (expandedArgsOf w env args) ((n : Int) + 1))),
            expandedCmdOf w env cmd, expandedArgsOf w env args,
            some (expandedCmdOf w env cmd, ex), b.stdout⟩
        | .launchError m =>
          ⟨false, some (.plain (failedMsg (expandedCmdOf w env cmd)
              (expandedArgsOf w env args) (.plain m))),
            expandedCmdOf w env cmd, expandedArgsOf w env args,
            some (expandedCmdOf w env cmd, ex), b.stdout⟩ := by
  unfold Exec run expandedCmdOf expandedArgsOf
  cases hg : expandGlob w (args.map (fun a => osExpand a (expandMapping env w))) with
  | error e => simp [hg]
  | ok ex =>
    cases ho : (w.runProc (osExpand cmd (expandMapping env w)) ex (childEnv w env)).outcome with
    | exited n =>
      cases n with
      | zero => simp [hg, ho, errOfOutcome, CmdRan, ExitStatus]
      | succ k => simp [hg, ho, errOfOutcome, CmdRan, ExitStatus]
    | launchError m => simp [hg, ho, errOfOutcome, CmdRan, ExitStatus]

/-! ### The claims -/

/-- Claim C1: for every command that the operating system starts and that
exits with a nonzero status N (1–255), `Exec` returns `ran = true`
together with an error that carries exit code exactly N (recoverable via
`ExitStatus`, so an upstream caller can re-exit with the same code). -/
theorem C1_exec_propagates_exit_code (w : World) (env : List (String × String))
    (cmd : String) (args : List String) (ex : List String) (n : Nat)
    (hn : 1 ≤ n) (hn255 : n ≤ 255)
    (hglob : expandGlob w (expandedArgsOf w env args) = .ok ex)
    (hrun : (w.runProc (expandedCmdOf w env cmd) ex (childEnv w env)).outcome
      = .exited n) :
    (Exec w env cmd args).ran = true ∧
      ∃ e, (Exec w env cmd args).err = some e ∧ ExitStatus (some e) = (n : Int) := by
  obtain ⟨k, rfl⟩ : ∃ k, n = k + 1 := ⟨n - 1, by omega⟩
  rw [exec_eq w env cmd args]
  simp only [hglob, hrun]
  refine ⟨trivial, ⟨fatalf ((k : Int) + 1) (fatalMsg (expandedCmdOf w env cmd)
    (expandedArgsOf w env args) ((k : Int) + 1)), rfl, ?_⟩⟩
  simp [fatalf, ExitStatus]

/-- Witness for C1 at a concrete world whose command exits with status 7. -/
theorem C1_witness :
    (Exec wExit [] "c" []).ran = true ∧
      ∃ e, (Exec wExit [] "c" []).err = some e ∧ ExitStatus (some e) = (7 : Int) :=
  C1_exec_propagates_exit_code wExit [] "c" [] [] 7 (by decide) (by decide) rfl rfl

/-- Claim C2: `CmdRan` (and the `ran` result of `Exec`) is true for a nil
error and for every error indicating the process started and exited,
regardless of exit code; among the errors produced by running a command it
is false exactly for the never-started (launch failure) case. -/
theorem C2_cmdRan_classification :
    CmdRan none = true ∧
    (∀ (sys : Bool) (st : Int), CmdRan (some (.exitError true sys st)) = true) ∧
    (∀ o : RunOutcome, CmdRan (errOfOutcome o) = o.started) ∧
    (∀ (w : World) (env : List (String × String)) (cmd : String)
        (args ex : List String),
      expandGlob w (expandedArgsOf w env args) = .ok ex →
      (Exec w env cmd args).ran =
        (w.runProc (expandedCmdOf w env cmd) ex (childEnv w env)).outcome.started) := by
  refine ⟨rfl, fun sys st => rfl, ?_, ?_⟩
  · intro o
    cases o with
    | exited n => cases n <;> rfl
    | launchError m => rfl
  · intro w env cmd args ex hglob
    rw [exec_eq w env cmd args]
    simp only [hglob]
    cases ho : (w.runProc (expandedCmdOf w env cmd) ex (childEnv w env)).outcome with
    | exited n => cases n <;> simp [RunOutcome.started]
    | launchError m => simp [RunOutcome.started]

/-- Witness for C2 at a concrete launch-failure world: `ran` is false. -/
theorem C2_witness :
    (Exec wLaunch [] "c" []).ran =
      (wLaunch.runProc (expandedCmdOf wLaunch [] "c") []
        (childEnv wLaunch [])).outcome.started :=
  C2_cmdRan_classification.2.2.2 wLaunch [] "c" [] [] rfl

/-- Claim C3: a command that exits with status 0 gives `ran = true` and a
nil error; and whenever `Exec` returns a nil error, `ran` is true. -/
theorem C3_exec_zero_exit_success (w : World) (env : List (String × String))
    (cmd : String) (args : List String) (ex : List String)
    (hglob : expandGlob w (expandedArgsOf w env args) = .ok ex)
    (hrun : (w.runProc (expandedCmdOf w env cmd) ex (childEnv w env)).outcome
      = .exited 0) :
    ((Exec w env cmd args).ran = true ∧ (Exec w env cmd args).err = none) ∧
    (∀ (w' : World) (env' : List (String × String)) (cmd' : String)
        (args' : List String),
      (Exec w' env' cmd' args').err = none → (Exec w' env' cmd' args').ran = true) := by
  constructor
  · rw [exec_eq w env cmd args]
    simp [hglob, hrun]
  · intro w' env' cmd' args' hnil
    rw [exec_eq w' env' cmd' args'] at hnil ⊢
    cases hg : expandGlob w' (expandedArgsOf w' env' args') with
    | error e => simp [hg] at hnil
    | ok ex' =>
      simp only [hg] at hnil ⊢
      cases ho : (w'.runProc (expandedCmdOf w' env' cmd') ex' (childEnv w' env')).outcome with
      | exited n => cases n <;> simp [ho] at hnil ⊢
      | launchError m => simp [ho] at hnil

/-- Witness for C3 at a concrete world whose command exits 0. -/
theorem C3_witness :
    ((Exec wZero [] "c" []).ran = true ∧ (Exec wZero [] "c" []).err = none) ∧
    (∀ (w' : World) (env' : List (String × String)) (cmd' : String)
        (args' : List String),
      (Exec w' env' cmd' args').err = none → (Exec w' env' cmd' args').ran = true) :=
  C3_exec_zero_exit_success wZero [] "c" [] [] rfl rfl

/-- Claim C4: when the executable cannot be started at all, `Exec` returns
`ran = false` and a plain error whose message is the launch-failure
wrapper around the underlying OS error — not an exit-code failure. -/
theorem C4_exec_launch_failure (w : World) (env : List (String × String))
    (cmd : String) (args : List String) (ex : List String) (m : String)
    (hglob : expandGlob w (expandedArgsOf w env args) = .ok ex)
    (hrun : (w.runProc (expandedCmdOf w env cmd) ex (childEnv w env)).outcome
      = .launchError m) :
    (Exec w env cmd args).ran = false ∧
    (Exec w env cmd args).err =
      some (.plain (failedMsg (expandedCmdOf w env cmd)
        (expandedArgsOf w env args) (.plain m))) ∧
    failedMsg (expandedCmdOf w env cmd) (expandedArgsOf w env args) (.plain m) =
      "failed to run \"" ++ expandedCmdOf w env cmd ++ " " ++
        String.intercalate " " (expandedArgsOf w env args) ++ ": " ++ m ++ "\"" := by
  rw [exec_eq w env cmd args]
  simp only [hglob, hrun]
  refine ⟨trivial, trivial, ?_⟩
  simp [failedMsg, errorMsg, String.append_assoc]

/-- Witness for C4 at a concrete world in which the binary is missing. -/
theorem C4_witness :
    (Exec wLaunch [] "nope" []).ran = false ∧
    (Exec wLaunch [] "nope" []).err =
      some (.plain (failedMsg (expandedCmdOf wLaunch [] "nope")
        (expandedArgsOf wLaunch [] [])
        (.plain "fork/exec /bin/nope: no such file or directory"))) ∧
    failedMsg (expandedCmdOf wLaunch [] "nope") (expandedArgsOf wLaunch [] [])
        (.plain "fork/exec /bin/nope: no such file or directory") =
      "failed to run \"" ++ expandedCmdOf wLaunch [] "nope" ++ " " ++
        String.intercalate " " (expandedArgsOf wLaunch [] []) ++ ": " ++
        "fork/exec /bin/nope: no such file or directory" ++ "\"" :=
  C4_exec_launch_failure wLaunch [] "nope" [] []
    "fork/exec /bin/nope: no such file or directory" rfl rfl

/-- Claim C5: the `$VAR` mapping used by `Exec` consults the override map
first and only on a miss the ambient environment; a name set in neither
expands to the empty string; an override always wins; a whole `$NAME`
token expands through exactly this mapping; and `Exec` applies the mapping
to the command and to every argument. -/
theorem C5_var_expansion_lookup :
    (∀ (env : List (String × String)) (w : World) (name v : String),
      env.lookup name = some v → expandMapping env w name = v) ∧
    (∀ (env : List (String × String)) (w : World) (name : String),
      env.lookup name = none → expandMapping env w name = getenv w name) ∧
    (∀ (env : List (String × String)) (w : World) (name : String),
      env.lookup name = none → w.osEnv name = none →
        expandMapping env w name = "") ∧
    (∀ (env : List (String × String)) (w : World) (c0 : Char) (nt : List Char),
      isAlphaNum c0 = true → isShellSpecialVar c0 = false →
      (∀ c ∈ nt, isAlphaNum c = true) →
      osExpand ⟨'$' :: c0 :: nt⟩ (expandMapping env w)
        = expandMapping env w ⟨c0 :: nt⟩) ∧
    (∀ (w : World) (env : List (String × String)) (cmd : String)
        (args : List String),
      (Exec w env cmd args).expandedCmd = osExpand cmd (expandMapping env w) ∧
      (Exec w env cmd args).expandedArgs
        = args.map (fun a => osExpand a (expandMapping env w))) := by
  refine ⟨?_, ?_, ?_, ?_, ?_⟩
  · intro env w name v h
    unfold expandMapping
    rw [h]
  · intro env w name h
    unfold expandMapping
    rw [h]
  · intro env w name h h'
    unfold expandMapping getenv
    rw [h, h']
    rfl
  · intro env w c0 nt h0 hns hall
    unfold osExpand
    rw [show (⟨'$' :: c0 :: nt⟩ : String).data = '$' :: c0 :: nt from rfl,
      expandChars_token (expandMapping env w) c0 nt h0 hns hall]
  · intro w env cmd args
    rw [exec_eq w env cmd args]
    cases hg : expandGlob w (expandedArgsOf w env args) with
    | error e => exact ⟨rfl, rfl⟩
    | ok ex =>
      cases ho : (w.runProc (expandedCmdOf w env cmd) ex (childEnv w env)).outcome with
      | exited n =>
        cases n with
        | zero => simp only [ho]; exact ⟨rfl, rfl⟩
        | succ k => simp only [ho]; exact ⟨rfl, rfl⟩
      | launchError m => simp only [ho]; exact ⟨rfl, rfl⟩

/-- Witness for C5: with override `FOO=bar` and ambient `FOO=baz`, `$FOO`
expands through the mapping and the override wins. -/
theorem C5_witness :
    expandMapping [("FOO", "bar")] wFiles "FOO" = "bar" ∧
    osExpand ⟨'$' :: 'F' :: ['O', 'O']⟩ (expandMapping [("FOO", "bar")] wFiles)
      = expandMapping [("FOO", "bar")] wFiles ⟨'F' :: ['O', 'O']⟩ :=
  ⟨C5_var_expansion_lookup.1 [("FOO", "bar")] wFiles "FOO" "bar" (by decide),
    C5_var_expansion_lookup.2.2.2.1 [("FOO", "bar")] wFiles 'F' ['O', 'O']
      (by decide) (by decide) (by decide)⟩

/-- Claim C6: glob expansion is per argument: when every glob call
succeeds the result is each argument replaced in place by its matches when
there is at least one, and by the argument itself (never dropped, never an
error) when there are none; the command name handed to the OS is the
variable-expanded command, never glob-expanded. -/
theorem C6_glob_per_argument :
    (∀ (w : World) (args : List String),
      (∀ a ∈ args, ∃ m, w.glob a = .ok m) →
      expandGlob w args = .ok ((args.map (globOne w)).flatten)) ∧
    (∀ (w : World) (v : String) (ms : List String),
      w.glob v = .ok ms → 0 < ms.length → globOne w v = ms) ∧
    (∀ (w : World) (v : String), w.glob v = .ok [] → globOne w v = [v]) ∧
    (∀ (w : World) (env : List (String × String)) (cmd : String)
        (args : List String) (p : String × List String),
      (Exec w env cmd args).attempted = some p →
        p.1 = expandedCmdOf w env cmd) := by
  refine ⟨?_, ?_, ?_, ?_⟩
  · intro w args h
    induction args with
    | nil => rfl
    | cons v rest ih =>
      obtain ⟨m, hm⟩ := h v (List.mem_cons_self v rest)
      have hrest := ih (fun a ha => h a (List.mem_cons_of_mem v ha))
      unfold expandGlob
      rw [hm, hrest]
      simp [globOne, hm]
  · intro w v ms hm hlen
    simp [globOne, hm, hlen]
  · intro w v hm
    simp [globOne, hm]
  · intro w env cmd args p hp
    rw [exec_eq w env cmd args] at hp
    cases hg : expandGlob w (expandedArgsOf w env args) with
    | error e => rw [hg] at hp; simp at hp
    | ok ex =>
      rw [hg] at hp
      cases ho : (w.runProc (expandedCmdOf w env cmd) ex (childEnv w env)).outcome with
      | exited n =>
        cases n with
        | zero => simp only [ho] at hp; simp at hp; rw [← hp]
        | succ k => simp only [ho] at hp; simp at hp; rw [← hp]
      | launchError m => simp only [ho] at hp; simp at hp; rw [← hp]

/-- Witness for C6: `*.go` matching two files expands to both, `*.xyz`
matching nothing passes through literally. -/
theorem C6_witness :
    expandGlob wFiles ["*.go", "*.xyz"]
      = .ok ((["*.go", "*.xyz"].map (globOne wFiles)).flatten) ∧
    (["*.go", "*.xyz"].map (globOne wFiles)).flatten = ["a.go", "b.go", "*.xyz"] :=
  ⟨C6_glob_per_argument.1 wFiles ["*.go", "*.xyz"]
      (by
        intro a ha
        cases ha with
        | head => exact ⟨["a.go", "b.go"], rfl⟩
        | tail _ h =>
          cases h with
          | head => exact ⟨[], rfl⟩
          | tail _ h' => cases h'),
    by decide⟩

/-- Claim C7: variable expansion happens before glob expansion: the
command and argument list handed to the OS are exactly the glob expansion
of the variable-expanded arguments (and the variable-expanded command). -/
theorem C7_var_expansion_before_glob (w : World) (env : List (String × String))
    (cmd : String) (args : List String) :
    (Exec w env cmd args).attempted =
      match expandGlob w (expandedArgsOf w env args) with
      | .ok ex => some (expandedCmdOf w env cmd, ex)
      | .error _ => none := by
  rw [exec_eq w env cmd args]
  cases hg : expandGlob w (expandedArgsOf w env args) with
  | error e => rfl
  | ok ex =>
    cases ho : (w.runProc (expandedCmdOf w env cmd) ex (childEnv w env)).outcome with
    | exited n => cases n <;> simp only [ho]
    | launchError m => simp only [ho]

/-- Claim C8: `Output` and `OutputWith` return the captured stdout with
exactly one trailing newline stripped when present and no more: appending
one newline is undone exactly, a capture without trailing newline is
unchanged, `"hello\n"` becomes `"hello"` and `"hello\n\n"` becomes
`"hello\n"`. -/
theorem C8_output_trims_one_newline :
    (∀ (w : World) (cmd : String) (args : List String),
      (Output w cmd args).1 = TrimSuffix (Exec w [] cmd args).outWritten "\n") ∧
    (∀ (w : World) (env : List (String × String)) (cmd : String)
        (args : List String),
      (OutputWith w env cmd args).1
        = TrimSuffix (Exec w env cmd args).outWritten "\n") ∧
    (∀ s : String, TrimSuffix (s ++ "\n") "\n" = s) ∧
    (∀ s : String, hasSuffix s "\n" = false → TrimSuffix s "\n" = s) ∧
    TrimSuffix "hello\n" "\n" = "hello" ∧
    TrimSuffix "hello\n\n" "\n" = "hello\n" := by
  refine ⟨fun w cmd args => rfl, fun w env cmd args => rfl,
    trimSuffix_append_newline, trimSuffix_not_newline, ?_, ?_⟩ <;> decide

/-- Witness for C8: a capture with no trailing newline is unchanged. -/
theorem C8_witness : TrimSuffix "abc" "\n" = "abc" :=
  C8_output_trims_one_newline.2.2.2.1 "abc" (by decide)

/-- Claim C9: a malformed glob pattern makes the call return the error as
a value before any child process is launched: nothing is handed to the OS,
`ran` is false, and the returned error wraps the glob error. -/
theorem C9_glob_error_aborts (w : World) (env : List (String × String))
    (cmd : String) (args : List String) (e : String)
    (hglob : expandGlob w (expandedArgsOf w env args) = .error e) :
    (Exec w env cmd args).attempted = none ∧
    (Exec w env cmd args).ran = false ∧
    (Exec w env cmd args).err =
      some (.plain (failedMsg (expandedCmdOf w env cmd)
        (expandedArgsOf w env args) (.plain e))) := by
  rw [exec_eq w env cmd args]
  simp [hglob]

/-- Witness for C9 at a world in which the pattern `[` is malformed. -/
theorem C9_witness :
    (Exec wBadGlob [] "c" ["["]).attempted = none ∧
    (Exec wBadGlob [] "c" ["["]).ran = false ∧
    (Exec wBadGlob [] "c" ["["]).err =
      some (.plain (failedMsg (expandedCmdOf wBadGlob [] "c")
        (expandedArgsOf wBadGlob [] ["["]) (.plain "syntax error in pattern"))) :=
  C9_glob_error_aborts wBadGlob [] "c" ["["] "syntax error in pattern" rfl

/-- Claim C10: `Exec` overwrites the elements of the caller's `args` slice
in place with their variable-expanded values — after the call, reading the
slice yields the expanded forms, not the originals; consequently a
`RunCmd` closure invoked with no extra arguments (whose `append` reuses
the baked-in backing array) observes its baked-in arguments mutated. -/
theorem C10_exec_mutates_args_in_place :
    (∀ (h : Heap) (w : World) (env : List (String × String)) (cmd : String)
        (s : Slice), validSlice h s →
      sliceRead (ExecH h w env cmd s).1 s
        = (sliceRead h s).map (fun a => osExpand a (expandMapping env w))) ∧
    (∀ (h : Heap) (w : World) (cmd : String) (baked : Slice),
      validSlice h baked →
      sliceRead (runCmdCall h w cmd baked []).1 baked
        = (sliceRead h baked).map (fun a => osExpand a (expandMapping [] w))) := by
  have main : ∀ (h : Heap) (w : World) (env : List (String × String))
      (cmd : String) (s : Slice), validSlice h s →
      sliceRead (ExecH h w env cmd s).1 s
        = (sliceRead h s).map (fun a => osExpand a (expandMapping env w)) := by
    intro h w env cmd s hv
    show sliceRead (writeExpanded h s _) s = _
    exact sliceRead_writeExpanded h s _ hv
  refine ⟨main, ?_⟩
  intro h w cmd baked hv
  unfold runCmdCall
  rw [goAppend_nil h baked hv]
  exact main h w [] cmd baked hv

/-- Witness for C10: the baked-in argument `$FOO` reads back as `baz`
(the ambient value) after one no-extra-arguments call of the closure. -/
theorem C10_witness :
    sliceRead (runCmdCall hBaked wFiles "c" sBaked []).1 sBaked = ["baz"] ∧
    sliceRead hBaked sBaked = ["$FOO"] := by
  refine ⟨?_, rfl⟩
  have h1 := C10_exec_mutates_args_in_place.2 hBaked wFiles "c" sBaked
    (by refine ⟨?_, ?_, ?_⟩ <;> decide)
  rw [h1]
  have h2 : sliceRead hBaked sBaked = ["$FOO"] := rfl
  rw [h2]
  have h3 : osExpand "$FOO" (expandMapping [] wFiles)
      = expandMapping [] wFiles "FOO" := by
    unfold osExpand
    rw [show ("$FOO" : String).data = '$' :: 'F' :: ['O', 'O'] from rfl,
      expandChars_token (expandMapping [] wFiles) 'F' ['O', 'O']
        (by decide) (by decide) (by decide)]
  simp only [List.map, h3]
  rfl

end Sh
